import Mathlib

set_option maxHeartbeats 1000000

/-!
Shallow embedding of the lzrs LZ77 compressor (src/lib.rs and src/lz77.rs).

Byte sequences are lists of naturals.  Operations that can hit an
out-of-bounds slice access in the Rust source are embedded as Option-valued
functions, with none marking the panic.  The compress loop, a while loop
advancing a cursor by at least one per iteration, is embedded with an
explicit fuel parameter; fuel raw.length + 1 is provably sufficient and the
result is proved independent of any sufficient fuel.
-/

/-- Embeds the composite search.windows(pat.len()).rposition(.. == pat) scan of
find_longest_match in src/lib.rs: the candidate window start indices p, p-1,
..., 0 are tried in order and the first (hence largest) index whose window
of width pat.length equals pat is returned. -/
def rposFrom (search pat : List Nat) : Nat → Option Nat
  | 0 => if (search.drop 0).take pat.length = pat then some 0 else none
  | p + 1 =>
    if (search.drop (p + 1)).take pat.length = pat then some (p + 1)
    else rposFrom search pat p

/-- rposition over all windows of width pat.length in search: the scan starts
at the last window index search.length - pat.length.  When pat is longer than
search there are no windows and no candidate matches, matching Rust. -/
def windowsRpos (search pat : List Nat) : Option Nat :=
  rposFrom search pat (search.length - pat.length)

/-- The descending for-loop of find_longest_match (src/lib.rs:50-62):
candidate match lengths M, M-1, ..., 1 are tried in order. -/
def flmAux (search ahead : List Nat) : Nat → Nat × Nat
  | 0 => (0, 0)
  | L + 1 =>
    match windowsRpos search (ahead.take (L + 1)) with
    | some pos => (search.length - pos, L + 1)
    | none => flmAux search ahead L

/-- find_longest_match (src/lib.rs:40-64). -/
def find_longest_match (search ahead : List Nat) : Nat × Nat :=
  flmAux search ahead ahead.length

/-- LZ77::encode (src/lz77.rs:121-131): pushes the three token bytes onto the
compressed vector. -/
def encode (compressed : List Nat) (position length next_charracter : Nat) : List Nat :=
  compressed ++
    [position &&& 255,
     ((position &&& 3840) >>> 8) ||| ((length &&& 15) <<< 4),
     next_charracter]

/-- LZ77::decode (src/lz77.rs:156-173).  The batch slice copy
buffer[start..end].to_vec() panics when end exceeds the buffer length; that
panic is embedded as none. -/
def decode (buffer : List Nat) (chunk : List Nat) : Option (List Nat) :=
  let position : Nat := (chunk.getD 0 0) ||| (((chunk.getD 1 0) &&& 15) <<< 8)
  let length : Nat := (chunk.getD 1 0) >>> 4
  if position = 0 ∧ length = 0 then
    some (buffer ++ [chunk.getD 2 0])
  else
    let start : Nat := buffer.length - position
    if start < buffer.length then
      if start + length ≤ buffer.length then
        some (buffer ++ (buffer.drop start).take length ++ [chunk.getD 2 0])
      else none
    else
      some (buffer ++ [chunk.getD 2 0])

/-- The while loop of LZ77::compress (src/lz77.rs:230-248), with the cursor i
and an explicit fuel bounding the number of remaining iterations. -/
def compressLoop (raw : List Nat) (maxDictionarySize lookaheadBufferSize : Nat) :
    List Nat → Nat → Nat → List Nat
  | acc, _, 0 => acc
  | acc, i, fuel + 1 =>
    if i < raw.length then
      let sbi := i - maxDictionarySize
      let abi := min (i + lookaheadBufferSize) raw.length
      let m := find_longest_match ((raw.drop sbi).take (i - sbi)) ((raw.drop i).take (abi - i))
      let next : Nat := if raw.length ≤ i + m.2 then 0 else raw.getD (i + m.2) 0
      compressLoop raw maxDictionarySize lookaheadBufferSize
        (encode acc m.1 m.2 next) (i + m.2 + 1) fuel
    else acc

/-- LZ77::compress (src/lz77.rs:208-251).  Fuel raw.length + 1 is sufficient:
see compressLoop_fuel_stable. -/
def compress (raw : List Nat) (maxDictionarySize lookaheadBufferSize : Nat) : List Nat :=
  compressLoop raw maxDictionarySize lookaheadBufferSize [] 0 (raw.length + 1)

/-- The chunk loop of LZ77::decompress (src/lz77.rs:288-290): the stream is
consumed three bytes at a time; a trailing fragment of one or two bytes makes
the slice compressed_data[i..i+3] go out of bounds, embedded as none. -/
def decompressLoop : List Nat → List Nat → Option (List Nat)
  | buffer, [] => some buffer
  | buffer, c0 :: c1 :: c2 :: rest =>
    match decode buffer [c0, c1, c2] with
    | some updated => decompressLoop updated rest
    | none => none
  | _, _ => none

/-- LZ77::decompress (src/lz77.rs:284-295), including the removal of a
trailing zero sentinel byte. -/
def decompress (compressed : List Nat) : Option (List Nat) :=
  match decompressLoop [] compressed with
  | none => none
  | some raw =>
    if 0 < raw.length ∧ raw.getD (raw.length - 1) 0 = 0 then
      some (raw.take (raw.length - 1))
    else
      some raw

/-- Observation function: the (distance, length) fields decoded from each
3-byte token of a compressed stream. -/
def tokenFields : List Nat → List (Nat × Nat)
  | c0 :: c1 :: _ :: rest => (c0 ||| ((c1 &&& 15) <<< 8), c1 >>> 4) :: tokenFields rest
  | _ => []

/-- A width-L window of search starting at s that lies inside search and
equals the first L bytes of ahead (the match relation of the spec). -/
def matchAt (search ahead : List Nat) (s L : Nat) : Prop :=
  s + L ≤ search.length ∧ (search.drop s).take L = ahead.take L

/-- A slice raw[a..b] with the Rust bounds check made explicit: none models
the panic on an out-of-range slice. -/
def sliceChk (l : List Nat) (a b : Nat) : Option (List Nat) :=
  if a ≤ b ∧ b ≤ l.length then some ((l.drop a).take (b - a)) else none

/-- An index access raw[j] with the Rust bounds check made explicit. -/
def getChk (l : List Nat) (j : Nat) : Option Nat :=
  if j < l.length then some (l.getD j 0) else none

/-- The compress loop with every slice and index access bounds-checked;
equal to some of the unchecked loop, proving compress never goes out of
bounds. -/
def compressChkLoop (raw : List Nat) (maxDictionarySize lookaheadBufferSize : Nat) :
    List Nat → Nat → Nat → Option (List Nat)
  | acc, _, 0 => some acc
  | acc, i, fuel + 1 =>
    if i < raw.length then
      match sliceChk raw (i - maxDictionarySize) i,
            sliceChk raw i (min (i + lookaheadBufferSize) raw.length) with
      | some hist, some ahead =>
        match (if raw.length ≤ i + (find_longest_match hist ahead).2 then some 0
               else getChk raw (i + (find_longest_match hist ahead).2)) with
        | some next =>
          compressChkLoop raw maxDictionarySize lookaheadBufferSize
            (encode acc (find_longest_match hist ahead).1
              (find_longest_match hist ahead).2 next)
            (i + (find_longest_match hist ahead).2 + 1) fuel
        | none => none
      | _, _ => none
    else some acc

/-- A 4097-byte input whose marker byte 1 recurs only at distance 4096: the
byte 1, then 4095 zero bytes, then the byte 1 again.  With a dictionary
window of 4096 the compressor emits for the final marker a back-reference
whose distance 4096 exceeds the 12-bit token field. -/
def markerRun : List Nat := 1 :: (List.replicate 4095 0 ++ [1])

/-! ### Bit arithmetic for the 3-byte token format -/

lemma land_255 (x : Nat) : x &&& 255 = x % 256 := by
  have h := Nat.and_pow_two_sub_one_eq_mod x 8
  norm_num at h
  exact h

lemma land_15 (x : Nat) : x &&& 15 = x % 16 := by
  have h := Nat.and_pow_two_sub_one_eq_mod x 4
  norm_num at h
  exact h

lemma land_3840_shift (x : Nat) : (x &&& 3840) >>> 8 = x / 256 % 16 := by
  have h : (x &&& 3840) >>> 8 = (x >>> 8) &&& 15 := by
    apply Nat.eq_of_testBit_eq
    intro i
    simp only [Nat.testBit_shiftRight, Nat.testBit_and]
    congr 1
    have h3840 : (3840 : Nat) = 2 ^ 8 * 15 := by norm_num
    rw [h3840, Nat.testBit_mul_pow_two]
    simp
  rw [h, land_15, Nat.shiftRight_eq_div_pow]

lemma or_shl_eq_add (a b k : Nat) (h : a < 2 ^ k) : a ||| (b <<< k) = b * 2 ^ k + a := by
  rw [Nat.shiftLeft_eq, Nat.or_comm, Nat.mul_comm b (2 ^ k)]
  exact (Nat.mul_add_lt_is_or h b).symm

/-! ### Token round-trip at the byte level -/

lemma enc_b1_eq (c l : Nat) :
    ((c &&& 3840) >>> 8) ||| ((l &&& 15) <<< 4) = (l % 16) * 16 + c / 256 % 16 := by
  have ha : c / 256 % 16 < 2 ^ 4 := by
    have h16 : (2 : Nat) ^ 4 = 16 := by norm_num
    rw [h16]
    exact Nat.mod_lt _ (by norm_num)
  rw [land_3840_shift, land_15, or_shl_eq_add _ _ 4 ha]
  norm_num

lemma decode_encode (buffer : List Nat) (c l n : Nat) (hc : c < 4096) (hl : l < 16) :
    decode buffer (encode [] c l n) =
      if c = 0 ∧ l = 0 then some (buffer ++ [n])
      else
        if buffer.length - c < buffer.length then
          if buffer.length - c + l ≤ buffer.length then
            some (buffer ++ (buffer.drop (buffer.length - c)).take l ++ [n])
          else none
        else some (buffer ++ [n]) := by
  have hb0 : (encode [] c l n).getD 0 0 = c % 256 := by simp [encode, land_255]
  have hb1 : (encode [] c l n).getD 1 0 = (l % 16) * 16 + c / 256 % 16 := by
    simp [encode, enc_b1_eq]
  have hb2 : (encode [] c l n).getD 2 0 = n := by simp [encode]
  have hpos :
      ((encode [] c l n).getD 0 0) ||| ((((encode [] c l n).getD 1 0) &&& 15) <<< 8) = c := by
    rw [hb0, hb1, land_15]
    have h1 : ((l % 16) * 16 + c / 256 % 16) % 16 = c / 256 % 16 := by omega
    have ha : c % 256 < 2 ^ 8 := by
      have h256 : (2 : Nat) ^ 8 = 256 := by norm_num
      rw [h256]
      exact Nat.mod_lt _ (by norm_num)
    rw [h1, or_shl_eq_add _ _ 8 ha]
    have h256 : (2 : Nat) ^ 8 = 256 := by norm_num
    rw [h256]
    omega
  have hlen : ((encode [] c l n).getD 1 0) >>> 4 = l := by
    rw [hb1, Nat.shiftRight_eq_div_pow]
    have h16 : (2 : Nat) ^ 4 = 16 := by norm_num
    rw [h16]
    omega
  simp only [decode]
  rw [hpos, hlen, hb2]

/-! ### Administrative lemmas for the compress loop -/

lemma compressLoop_stop (raw : List Nat) (md lk : Nat) (acc : List Nat) (i fuel : Nat)
    (h : raw.length ≤ i) : compressLoop raw md lk acc i fuel = acc := by
  cases fuel with
  | zero => rfl
  | succ f => simp [compressLoop, Nat.not_lt.mpr h]

lemma compressLoop_acc (raw : List Nat) (md lk : Nat) :
    ∀ fuel acc i, compressLoop raw md lk acc i fuel = acc ++ compressLoop raw md lk [] i fuel := by
  intro fuel
  induction fuel with
  | zero => intro acc i; simp [compressLoop]
  | succ f ih =>
    intro acc i
    by_cases h : i < raw.length
    · simp only [compressLoop, h, if_true]
      rw [ih]
      conv_rhs => rw [ih]
      simp [encode]
    · simp [compressLoop, h]

lemma compressLoop_fuel_stable (raw : List Nat) (md lk : Nat) :
    ∀ f1 f2 acc i, raw.length - i < f1 → raw.length - i < f2 →
      compressLoop raw md lk acc i f1 = compressLoop raw md lk acc i f2 := by
  intro f1
  induction f1 with
  | zero => intro f2 acc i h1 _; exact absurd h1 (Nat.not_lt_zero _)
  | succ f ih =>
    intro f2 acc i h1 h2
    cases f2 with
    | zero => exact absurd h2 (Nat.not_lt_zero _)
    | succ g =>
      by_cases h : i < raw.length
      · simp only [compressLoop, h, if_true]
        apply ih
        · omega
        · omega
      · simp [compressLoop, h]

/-! ### Characterization of find_longest_match -/

lemma rposFrom_some (search pat : List Nat) :
    ∀ p s, rposFrom search pat p = some s →
      s ≤ p ∧ (search.drop s).take pat.length = pat ∧
        ∀ t, s < t → t ≤ p → (search.drop t).take pat.length ≠ pat := by
  intro p
  induction p with
  | zero =>
    intro s h
    unfold rposFrom at h
    split at h
    · rename_i hc
      injection h with h0
      subst h0
      exact ⟨Nat.le_refl 0, hc,
        fun t ht1 ht2 => absurd (Nat.lt_of_lt_of_le ht1 ht2) (Nat.lt_irrefl _)⟩
    · exact Option.noConfusion h
  | succ p ih =>
    intro s h
    unfold rposFrom at h
    split at h
    · rename_i hc
      injection h with h0
      subst h0
      exact ⟨Nat.le_refl _, hc,
        fun t ht1 ht2 => absurd (Nat.lt_of_lt_of_le ht1 ht2) (Nat.lt_irrefl _)⟩
    · rename_i hc
      obtain ⟨h1, h2, h3⟩ := ih s h
      refine ⟨Nat.le_succ_of_le h1, h2, fun t ht1 ht2 => ?_⟩
      rcases Nat.lt_or_ge t (p + 1) with h4 | h4
      · exact h3 t ht1 (Nat.lt_succ_iff.mp h4)
      · have ht : t = p + 1 := Nat.le_antisymm ht2 h4
        subst ht
        exact hc

lemma rposFrom_none (search pat : List Nat) :
    ∀ p, rposFrom search pat p = none →
      ∀ t, t ≤ p → (search.drop t).take pat.length ≠ pat := by
  intro p
  induction p with
  | zero =>
    intro h t ht
    have ht0 : t = 0 := Nat.le_zero.mp ht
    subst ht0
    unfold rposFrom at h
    split at h
    · exact Option.noConfusion h
    · rename_i hc
      exact hc
  | succ p ih =>
    intro h t ht
    unfold rposFrom at h
    split at h
    · exact Option.noConfusion h
    · rename_i hc
      rcases Nat.lt_or_ge t (p + 1) with h4 | h4
      · exact ih h t (Nat.lt_succ_iff.mp h4)
      · have ht' : t = p + 1 := Nat.le_antisymm ht h4
        subst ht'
        exact hc

lemma take_eq_of_matchAt {search ahead : List Nat} {s L : Nat} (hL : L ≤ ahead.length)
    (h : matchAt search ahead s L) :
    (search.drop s).take (ahead.take L).length = ahead.take L := by
  have hlen : (ahead.take L).length = L := by simp [hL]
  rw [hlen]
  exact h.2

lemma matchAt_of_take_eq {search ahead : List Nat} {s L : Nat} (h1 : 1 ≤ L)
    (hL : L ≤ ahead.length)
    (h : (search.drop s).take (ahead.take L).length = ahead.take L) :
    matchAt search ahead s L := by
  have hlen : (ahead.take L).length = L := by simp [hL]
  rw [hlen] at h
  refine ⟨?_, h⟩
  have hlen2 := congrArg List.length h
  simp only [List.length_take, List.length_drop, hlen] at hlen2
  have h5 : L ≤ search.length - s := by
    rw [min_eq_left_iff] at hlen2
    exact hlen2
  omega

lemma flmAux_spec (search ahead : List Nat) :
    ∀ M, M ≤ ahead.length →
      (flmAux search ahead M = (0, 0) ∧
        ∀ L s, 1 ≤ L → L ≤ M → ¬ matchAt search ahead s L) ∨
      (∃ L s, 1 ≤ L ∧ L ≤ M ∧ flmAux search ahead M = (search.length - s, L) ∧
        matchAt search ahead s L ∧ (∀ t, matchAt search ahead t L → t ≤ s) ∧
        ∀ L' s', L < L' → L' ≤ M → ¬ matchAt search ahead s' L') := by
  intro M
  induction M with
  | zero =>
    intro _
    left
    exact ⟨rfl, fun L s h1 h2 => absurd (Nat.le_trans h1 h2) (by omega)⟩
  | succ M ih =>
    intro hM
    have hM' : M ≤ ahead.length := Nat.le_of_succ_le hM
    have hpatlen : (ahead.take (M + 1)).length = M + 1 := by simp [hM]
    cases hw : windowsRpos search (ahead.take (M + 1)) with
    | some pos =>
      right
      obtain ⟨h1, h2, h3⟩ := rposFrom_some search (ahead.take (M + 1)) _ pos hw
      refine ⟨M + 1, pos, Nat.succ_le_succ (Nat.zero_le _), Nat.le_refl _, ?_, ?_, ?_, ?_⟩
      · simp [flmAux, hw]
      · exact matchAt_of_take_eq (by omega) hM h2
      · intro t hmt
        by_contra hlt
        have h4 : pos < t := Nat.lt_of_not_le hlt
        have h5 : t ≤ search.length - (M + 1) := by
          have h6 := hmt.1
          omega
        refine h3 t h4 ?_ (take_eq_of_matchAt hM hmt)
        rw [hpatlen]
        exact h5
      · intro L' s' hl1 hl2
        omega
    | none =>
      have hnone : ∀ s, ¬ matchAt search ahead s (M + 1) := by
        intro s hm
        have h5 : s ≤ search.length - (M + 1) := by
          have h6 := hm.1
          omega
        refine rposFrom_none search (ahead.take (M + 1)) _ hw s ?_
          (take_eq_of_matchAt hM hm)
        rw [hpatlen]
        exact h5
      have hstep : flmAux search ahead (M + 1) = flmAux search ahead M := by
        simp [flmAux, hw]
      rcases ih hM' with ⟨he, hno⟩ | ⟨L, s, h1, h2, h3, h4, h5, h6⟩
      · left
        refine ⟨by rw [hstep, he], fun L s hL1 hL2 => ?_⟩
        rcases Nat.lt_or_ge L (M + 1) with h7 | h7
        · exact hno L s hL1 (by omega)
        · have hL : L = M + 1 := by omega
          subst hL
          exact hnone s
      · right
        refine ⟨L, s, h1, by omega, by rw [hstep]; exact h3, h4, h5,
          fun L' s' hl1 hl2 => ?_⟩
        rcases Nat.lt_or_ge L' (M + 1) with h7 | h7
        · exact h6 L' s' hl1 (by omega)
        · have hL : L' = M + 1 := by omega
          subst hL
          exact hnone s'

lemma flm_zero (search ahead : List Nat)
    (h : (find_longest_match search ahead).2 = 0) :
    find_longest_match search ahead = (0, 0) := by
  rcases flmAux_spec search ahead ahead.length (Nat.le_refl _) with
    ⟨he, _⟩ | ⟨L, s, h1, _, h3, _⟩
  · exact he
  · exfalso
    rw [find_longest_match, h3] at h
    simp at h
    omega

lemma flm_le_ahead (search ahead : List Nat) :
    (find_longest_match search ahead).2 ≤ ahead.length := by
  rcases flmAux_spec search ahead ahead.length (Nat.le_refl _) with
    ⟨he, _⟩ | ⟨L, s, _, h2, h3, _⟩
  · rw [find_longest_match, he]
    exact Nat.zero_le _
  · rw [find_longest_match, h3]
    exact h2

lemma flm_pos (search ahead : List Nat) (c l : Nat)
    (h : find_longest_match search ahead = (c, l)) (hp : 0 < l) :
    l ≤ c ∧ c ≤ search.length ∧ l ≤ ahead.length ∧
      (search.drop (search.length - c)).take l = ahead.take l := by
  rcases flmAux_spec search ahead ahead.length (Nat.le_refl _) with
    ⟨he, _⟩ | ⟨L, s, h1, h2, h3, h4, _, _⟩
  · rw [find_longest_match, he] at h
    cases h
    omega
  · rw [find_longest_match, h3] at h
    cases h
    obtain ⟨hs1, hs2⟩ := h4
    have hs : search.length - (search.length - s) = s := by omega
    rw [hs]
    exact ⟨by omega, by omega, h2, hs2⟩

/-! ### List helpers -/

lemma take_succ_getD (l : List Nat) (i : Nat) (h : i < l.length) :
    l.take (i + 1) = l.take i ++ [l.getD i 0] := by
  rw [List.take_succ]
  congr 1
  rw [List.getElem?_eq_getElem h]
  simp [List.getD_eq_getElem?_getD, List.getElem?_eq_getElem h]

lemma window_take (raw : List Nat) (i c l : Nat) (hci : c ≤ i) (hlc : l ≤ c) :
    ((raw.take i).drop (i - c)).take l = (raw.drop (i - c)).take l := by
  have h1 : min l (i - (i - c)) = l := by
    have h2 : i - (i - c) = c := by omega
    rw [h2]
    exact min_eq_left hlc
  rw [List.drop_take, List.take_take, h1]

lemma hist_window (raw : List Nat) (sbi i c l : Nat) (hc : c ≤ i - sbi) (hl : l ≤ c)
    (hs : sbi ≤ i) :
    (((raw.drop sbi).take (i - sbi)).drop (i - sbi - c)).take l =
      (raw.drop (i - c)).take l := by
  have h1 : sbi + (i - sbi - c) = i - c := by omega
  have h2 : min l (i - sbi - (i - sbi - c)) = l := by
    have h3 : i - sbi - (i - sbi - c) = c := by omega
    rw [h3]
    exact min_eq_left hl
  rw [List.drop_take, List.drop_drop, List.take_take, h1, h2]

lemma decompressLoop_encode_some (buffer : List Nat) (c l n : Nat) (rest : List Nat)
    (updated : List Nat) (h : decode buffer (encode [] c l n) = some updated) :
    decompressLoop buffer (encode [] c l n ++ rest) = decompressLoop updated rest := by
  have heq : decompressLoop buffer (encode [] c l n ++ rest) =
      match decode buffer (encode [] c l n) with
      | some u => decompressLoop u rest
      | none => none := rfl
  rw [heq, h]

/-! ### One step of the compress and decompress round trip -/

lemma roundtrip_step (raw : List Nat) (i c l : Nat) (h : i < raw.length)
    (hc4 : c < 4096) (hl4 : l < 16)
    (hlc : l = 0 → c = 0) (hcl : 0 < l → l ≤ c) (hci : c ≤ i)
    (hil : i + l ≤ raw.length)
    (hwin : 0 < l → (raw.drop (i - c)).take l = (raw.drop i).take l) :
    decode (raw.take i)
      (encode [] c l (if raw.length ≤ i + l then 0 else raw.getD (i + l) 0)) =
      some (if raw.length ≤ i + l then raw ++ [0] else raw.take (i + l + 1)) := by
  rw [decode_encode _ _ _ _ hc4 hl4]
  have hbl : (raw.take i).length = i := by
    rw [List.length_take]
    exact min_eq_left (Nat.le_of_lt h)
  by_cases hl0 : l = 0
  · subst hl0
    have hc0 : c = 0 := hlc rfl
    subst hc0
    rw [if_pos ⟨rfl, rfl⟩]
    have hnl : ¬ raw.length ≤ i + 0 := by omega
    rw [if_neg hnl, if_neg hnl]
    simp only [Nat.add_zero]
    rw [← take_succ_getD raw i h]
  · have hl0' : 0 < l := Nat.pos_of_ne_zero hl0
    have hlec : l ≤ c := hcl hl0'
    have hcpos : 0 < c := Nat.lt_of_lt_of_le hl0' hlec
    have hns : ¬ (c = 0 ∧ l = 0) := by omega
    rw [if_neg hns, hbl]
    have hstart : i - c < i := by omega
    rw [if_pos hstart]
    have hend : i - c + l ≤ i := by omega
    rw [if_pos hend]
    rw [window_take raw i c l hci hlec, hwin hl0', ← List.take_add]
    by_cases hle : raw.length ≤ i + l
    · have hileq : i + l = raw.length := by omega
      rw [if_pos hle, if_pos hle, hileq, List.take_length]
    · rw [if_neg hle, if_neg hle]
      rw [← take_succ_getD raw (i + l) (by omega)]

/-! ### The round-trip invariant over the whole compress loop -/

lemma roundtrip_loop (raw : List Nat) (md lk : Nat) (hmd : md ≤ 4095) (hlk : lk ≤ 15) :
    ∀ fuel i, raw.length - i < fuel → i ≤ raw.length →
      ∃ out, decompressLoop (raw.take i) (compressLoop raw md lk [] i fuel) = some out ∧
        (out = raw ∨ out = raw ++ [0]) := by
  intro fuel
  induction fuel with
  | zero =>
    intro i h1 _
    exact absurd h1 (Nat.not_lt_zero _)
  | succ fuel ih =>
    intro i h1 h2
    by_cases h : i < raw.length
    · simp only [compressLoop, h, if_true]
      set m := find_longest_match ((raw.drop (i - md)).take (i - (i - md)))
        ((raw.drop i).take (min (i + lk) raw.length - i)) with hmdef
      have hhist : ((raw.drop (i - md)).take (i - (i - md))).length = i - (i - md) := by
        rw [List.length_take, List.length_drop]
        exact min_eq_left (by omega)
      have habi1 : i ≤ min (i + lk) raw.length :=
        le_min (Nat.le_add_right _ _) (Nat.le_of_lt h)
      have habi2 : min (i + lk) raw.length ≤ raw.length := min_le_right _ _
      have habi3 : min (i + lk) raw.length ≤ i + lk := min_le_left _ _
      have hahead : ((raw.drop i).take (min (i + lk) raw.length - i)).length =
          min (i + lk) raw.length - i := by
        rw [List.length_take, List.length_drop]
        exact min_eq_left (by omega)
      have hl2m : m.2 ≤ min (i + lk) raw.length - i := by
        have h3 := flm_le_ahead ((raw.drop (i - md)).take (i - (i - md)))
          ((raw.drop i).take (min (i + lk) raw.length - i))
        rw [hahead] at h3
        rw [hmdef]
        exact h3
      have hl4 : m.2 < 16 := by omega
      have hil : i + m.2 ≤ raw.length := by omega
      have hmz : m.2 = 0 → m.1 = 0 := by
        intro h0
        rw [hmdef] at h0
        have h4 := flm_zero _ _ h0
        rw [← hmdef] at h4
        rw [h4]
      have hapos : 0 < m.2 → m.2 ≤ m.1 ∧ m.1 ≤ i - (i - md) ∧
          (raw.drop (i - m.1)).take m.2 = (raw.drop i).take m.2 := by
        intro hp
        obtain ⟨ha, hb, hc', hd⟩ :=
          flm_pos _ _ m.1 m.2 (by rw [← hmdef]) hp
        rw [hhist] at hb hd
        rw [hist_window raw (i - md) i m.1 m.2 hb ha (by omega)] at hd
        refine ⟨ha, hb, ?_⟩
        rw [hd, List.take_take, min_eq_left hl2m]
      have hc4 : m.1 < 4096 := by
        rcases Nat.eq_zero_or_pos m.2 with h0 | h0
        · rw [hmz h0]
          omega
        · have h5 := (hapos h0).2.1
          omega
      have hci : m.1 ≤ i := by
        rcases Nat.eq_zero_or_pos m.2 with h0 | h0
        · rw [hmz h0]
          omega
        · have h5 := (hapos h0).2.1
          omega
      have hcl : 0 < m.2 → m.2 ≤ m.1 := fun hp => (hapos hp).1
      have hwin : 0 < m.2 → (raw.drop (i - m.1)).take m.2 = (raw.drop i).take m.2 :=
        fun hp => (hapos hp).2.2
      rw [compressLoop_acc]
      rw [decompressLoop_encode_some _ _ _ _ _ _
        (roundtrip_step raw i m.1 m.2 h hc4 hl4 hmz hcl hci hil hwin)]
      by_cases hle : raw.length ≤ i + m.2
      · rw [if_pos hle]
        rw [compressLoop_stop raw md lk [] _ _ (by omega)]
        exact ⟨raw ++ [0], rfl, Or.inr rfl⟩
      · rw [if_neg hle]
        exact ih (i + m.2 + 1) (by omega) (by omega)
    · have hi : i = raw.length := by omega
      subst hi
      rw [compressLoop_stop raw md lk [] _ _ (Nat.le_refl _)]
      rw [List.take_length]
      exact ⟨raw, rfl, Or.inl rfl⟩

/-! ### Top-level round trip -/

lemma decompress_eq_of_loop (compressed out : List Nat)
    (h : decompressLoop [] compressed = some out) :
    decompress compressed =
      if 0 < out.length ∧ out.getD (out.length - 1) 0 = 0 then
        some (out.take (out.length - 1))
      else some out := by
  unfold decompress
  rw [h]

lemma decompress_none_of_loop (compressed : List Nat)
    (h : decompressLoop [] compressed = none) : decompress compressed = none := by
  unfold decompress
  rw [h]

lemma roundtrip_general (raw : List Nat) (md lk : Nat) (hmd : md ≤ 4095) (hlk : lk ≤ 15)
    (hlast : raw.getLast? ≠ some 0) :
    decompress (compress raw md lk) = some raw := by
  obtain ⟨out, hdec, hout⟩ :=
    roundtrip_loop raw md lk hmd hlk (raw.length + 1) 0 (by omega) (Nat.zero_le _)
  simp only [List.take_zero] at hdec
  rw [show compressLoop raw md lk [] 0 (raw.length + 1) = compress raw md lk from rfl] at hdec
  rw [decompress_eq_of_loop _ _ hdec]
  rcases hout with h5 | h5 <;> rw [h5]
  · rcases eq_or_ne raw [] with hnil | hnil
    · subst hnil
      norm_num
    · have hne : ¬ (0 < raw.length ∧ raw.getD (raw.length - 1) 0 = 0) := by
        rintro ⟨hpos, hz⟩
        apply hlast
        have hlt : raw.length - 1 < raw.length := by omega
        rw [List.getD_eq_getElem?_getD, List.getElem?_eq_getElem hlt] at hz
        simp only [Option.getD_some] at hz
        rw [List.getLast?_eq_getElem?, List.getElem?_eq_getElem hlt, hz]
      rw [if_neg hne]
  · have hpos : 0 < (raw ++ [0]).length := by simp
    have hz : (raw ++ [0]).getD ((raw ++ [0]).length - 1) 0 = 0 := by
      simp [List.getD_eq_getElem?_getD, List.getElem?_append_right]
    rw [if_pos ⟨hpos, hz⟩]
    simp

/-! ### Streams whose length is not a multiple of three -/

lemma decompressLoop_not_mul3_aux :
    ∀ n data buffer, List.length data ≤ n → List.length data % 3 ≠ 0 →
      decompressLoop buffer data = none := by
  intro n
  induction n with
  | zero =>
    intro data buffer h1 h2
    exact absurd (by omega : List.length data % 3 = 0) h2
  | succ n ih =>
    intro data buffer h1 h2
    rcases data with _ | ⟨c0, _ | ⟨c1, _ | ⟨c2, rest⟩⟩⟩
    · exact absurd (by simp) h2
    · rfl
    · rfl
    · have h3 : List.length rest % 3 ≠ 0 := by
        simp only [List.length_cons] at h2
        omega
      have h4 : List.length rest ≤ n := by
        simp only [List.length_cons] at h1
        omega
      cases hdec : decode buffer [c0, c1, c2] with
      | none => simp only [decompressLoop, hdec]
      | some u =>
        simp only [decompressLoop, hdec]
        exact ih rest u h4 h3

lemma decompressLoop_not_mul3 (data buffer : List Nat)
    (h : List.length data % 3 ≠ 0) : decompressLoop buffer data = none :=
  decompressLoop_not_mul3_aux (List.length data) data buffer (Nat.le_refl _) h

/-! ### Compress with explicit bounds checks -/

lemma compressChkLoop_eq (raw : List Nat) (md lk : Nat) :
    ∀ fuel acc i, raw.length - i < fuel →
      compressChkLoop raw md lk acc i fuel = some (compressLoop raw md lk acc i fuel) := by
  intro fuel
  induction fuel with
  | zero =>
    intro acc i h
    exact absurd h (Nat.not_lt_zero _)
  | succ fuel ih =>
    intro acc i h1
    by_cases h : i < raw.length
    · have hs1 : sliceChk raw (i - md) i =
          some ((raw.drop (i - md)).take (i - (i - md))) := by
        unfold sliceChk
        rw [if_pos ⟨by omega, by omega⟩]
      have hs2 : sliceChk raw i (min (i + lk) raw.length) =
          some ((raw.drop i).take (min (i + lk) raw.length - i)) := by
        unfold sliceChk
        rw [if_pos ⟨le_min (Nat.le_add_right _ _) (Nat.le_of_lt h), min_le_right _ _⟩]
      simp only [compressChkLoop, compressLoop, h, if_true, hs1, hs2]
      set m := find_longest_match ((raw.drop (i - md)).take (i - (i - md)))
        ((raw.drop i).take (min (i + lk) raw.length - i)) with hmdef
      by_cases hn : raw.length ≤ i + m.2
      · simp only [if_pos hn]
        exact ih _ _ (by omega)
      · have hg : getChk raw (i + m.2) = some (raw.getD (i + m.2) 0) := by
          unfold getChk
          rw [if_pos (by omega)]
        simp only [if_neg hn, hg]
        exact ih _ _ (by omega)
    · simp only [compressChkLoop, compressLoop, h, if_false]

/-! ### Token fields of streams produced by compress -/

lemma token_pos_recover (c l : Nat) (hc : c < 4096) :
    (c &&& 255) ||| (((((c &&& 3840) >>> 8) ||| ((l &&& 15) <<< 4)) &&& 15) <<< 8) = c := by
  rw [enc_b1_eq, land_255, land_15]
  have h1 : ((l % 16) * 16 + c / 256 % 16) % 16 = c / 256 % 16 := by omega
  have ha : c % 256 < 2 ^ 8 := by
    have h256 : (2 : Nat) ^ 8 = 256 := by norm_num
    rw [h256]
    exact Nat.mod_lt _ (by norm_num)
  rw [h1, or_shl_eq_add _ _ 8 ha]
  have h256 : (2 : Nat) ^ 8 = 256 := by norm_num
  rw [h256]
  omega

lemma token_len_recover (c l : Nat) (hl : l < 16) :
    (((c &&& 3840) >>> 8) ||| ((l &&& 15) <<< 4)) >>> 4 = l := by
  rw [enc_b1_eq, Nat.shiftRight_eq_div_pow]
  have h16 : (2 : Nat) ^ 4 = 16 := by norm_num
  rw [h16]
  omega

lemma tokenFields_encode (c l n : Nat) (hc : c < 4096) (hl : l < 16) (rest : List Nat) :
    tokenFields (encode [] c l n ++ rest) = (c, l) :: tokenFields rest := by
  have he : encode [] c l n ++ rest =
      (c &&& 255) :: (((c &&& 3840) >>> 8) ||| ((l &&& 15) <<< 4)) :: n :: rest := rfl
  rw [he]
  simp only [tokenFields]
  rw [token_pos_recover c l hc, token_len_recover c l hl]

lemma compress_tokens_bounded (raw : List Nat) (md lk : Nat)
    (hmd : md ≤ 4095) (hlk : lk ≤ 15) :
    ∀ fuel i, raw.length - i < fuel →
      ∀ p ∈ tokenFields (compressLoop raw md lk [] i fuel), p.2 ≤ p.1 := by
  intro fuel
  induction fuel with
  | zero =>
    intro i h
    exact absurd h (Nat.not_lt_zero _)
  | succ fuel ih =>
    intro i h1
    by_cases h : i < raw.length
    · simp only [compressLoop, h, if_true]
      rw [compressLoop_acc]
      set m := find_longest_match ((raw.drop (i - md)).take (i - (i - md)))
        ((raw.drop i).take (min (i + lk) raw.length - i)) with hmdef
      have hhist : ((raw.drop (i - md)).take (i - (i - md))).length = i - (i - md) := by
        rw [List.length_take, List.length_drop]
        exact min_eq_left (by omega)
      have habi3 : min (i + lk) raw.length ≤ i + lk := min_le_left _ _
      have habi2 : min (i + lk) raw.length ≤ raw.length := min_le_right _ _
      have hahead : ((raw.drop i).take (min (i + lk) raw.length - i)).length =
          min (i + lk) raw.length - i := by
        rw [List.length_take, List.length_drop]
        exact min_eq_left (by omega)
      have hl2m : m.2 ≤ min (i + lk) raw.length - i := by
        have h3 := flm_le_ahead ((raw.drop (i - md)).take (i - (i - md)))
          ((raw.drop i).take (min (i + lk) raw.length - i))
        rw [hahead] at h3
        rw [hmdef]
        exact h3
      have hl4 : m.2 < 16 := by omega
      have hmz : m.2 = 0 → m.1 = 0 := by
        intro h0
        rw [hmdef] at h0
        have h4 := flm_zero _ _ h0
        rw [← hmdef] at h4
        rw [h4]
      have hml : m.2 ≤ m.1 := by
        rcases Nat.eq_zero_or_pos m.2 with h0 | h0
        · rw [h0, hmz h0]
        · exact (flm_pos _ _ m.1 m.2 (by rw [← hmdef]) h0).1
      have hc4 : m.1 < 4096 := by
        rcases Nat.eq_zero_or_pos m.2 with h0 | h0
        · rw [hmz h0]
          omega
        · have hb := (flm_pos _ _ m.1 m.2 (by rw [← hmdef]) h0).2.1
          rw [hhist] at hb
          omega
      rw [tokenFields_encode m.1 m.2 _ hc4 hl4]
      intro p hp
      rcases List.mem_cons.mp hp with h5 | h5
      · subst h5
        exact hml
      · exact ih (i + m.2 + 1) (by omega) p h5
    · rw [compressLoop_stop raw md lk [] _ _ (by omega)]
      intro p hp
      simp [tokenFields] at hp

lemma decompress_compress_isSome (raw : List Nat) (md lk : Nat)
    (hmd : md ≤ 4095) (hlk : lk ≤ 15) :
    (decompress (compress raw md lk)).isSome = true := by
  obtain ⟨out, hdec, _⟩ :=
    roundtrip_loop raw md lk hmd hlk (raw.length + 1) 0 (by omega) (Nat.zero_le _)
  simp only [List.take_zero] at hdec
  rw [show compressLoop raw md lk [] 0 (raw.length + 1) = compress raw md lk from rfl] at hdec
  rw [decompress_eq_of_loop _ _ hdec]
  split
  · rfl
  · rfl

/-! ### A dictionary window beyond the token capacity masks a token -/

lemma compressLoop_step_eq (raw : List Nat) (md lk : Nat) (acc : List Nat) (i fuel : Nat)
    (hfuel : 0 < fuel) (h : i < raw.length) (c l n : Nat)
    (hm : find_longest_match ((raw.drop (i - md)).take (i - (i - md)))
        ((raw.drop i).take (min (i + lk) raw.length - i)) = (c, l))
    (hn : (if raw.length ≤ i + l then 0 else raw.getD (i + l) 0) = n) :
    compressLoop raw md lk acc i fuel =
      compressLoop raw md lk (encode acc c l n) (i + l + 1) (fuel - 1) := by
  obtain ⟨f, rfl⟩ : ∃ f, fuel = f + 1 := ⟨fuel - 1, by omega⟩
  simp only [Nat.add_sub_cancel]
  simp only [compressLoop, h, if_true, hm]
  rw [hn]

lemma markerRun_length : markerRun.length = 4097 := by
  unfold markerRun
  rw [List.length_cons, List.length_append, List.length_replicate, List.length_singleton]

lemma markerRun_take (i : Nat) (h1 : 1 ≤ i) (h2 : i ≤ 4096) :
    markerRun.take i = 1 :: List.replicate (i - 1) 0 := by
  obtain ⟨j, rfl⟩ : ∃ j, i = j + 1 := ⟨i - 1, by omega⟩
  simp only [Nat.add_sub_cancel]
  unfold markerRun
  rw [List.take_succ_cons,
    List.take_append_of_le_length (by simp only [List.length_replicate]; omega),
    List.take_replicate, min_eq_left (by omega)]

lemma markerRun_drop_take (i m : Nat) (h1 : 1 ≤ i) (h2 : i + m ≤ 4096) :
    (markerRun.drop i).take m = List.replicate m 0 := by
  obtain ⟨j, rfl⟩ : ∃ j, i = j + 1 := ⟨i - 1, by omega⟩
  unfold markerRun
  rw [List.drop_succ_cons,
    List.drop_append_of_le_length (by simp only [List.length_replicate]; omega),
    List.drop_replicate,
    List.take_append_of_le_length (by simp only [List.length_replicate]; omega),
    List.take_replicate, min_eq_left (by omega)]

lemma markerRun_getD (j : Nat) (h1 : 1 ≤ j) (h2 : j ≤ 4095) :
    markerRun.getD j 0 = 0 := by
  obtain ⟨q, rfl⟩ : ∃ q, j = q + 1 := ⟨j - 1, by omega⟩
  unfold markerRun
  rw [List.getD_cons_succ, List.getD_eq_getElem?_getD,
    List.getElem?_append_left (by simp only [List.length_replicate]; omega),
    List.getElem?_replicate_of_lt (by omega)]
  rfl

lemma rposFrom_top (search pat : List Nat) (p : Nat)
    (h : (search.drop p).take pat.length = pat) : rposFrom search pat p = some p := by
  cases p with
  | zero =>
    show (if (search.drop 0).take pat.length = pat then some 0 else none) = some 0
    rw [if_pos h]
  | succ q =>
    show (if (search.drop (q + 1)).take pat.length = pat then some (q + 1)
      else rposFrom search pat q) = some (q + 1)
    rw [if_pos h]

lemma flm_nil (x : List Nat) : find_longest_match [] x = (0, 0) := by
  rcases flmAux_spec [] x x.length (Nat.le_refl _) with
    ⟨he, _⟩ | ⟨L, s, h1, _, _, h4, _, _⟩
  · exact he
  · exfalso
    have h5 := h4.1
    simp only [List.length_nil] at h5
    omega

lemma flm_zero_run (i : Nat) (h1 : 16 ≤ i) (h2 : i ≤ 4096) :
    find_longest_match (1 :: List.replicate (i - 1) 0) (List.replicate 15 0) =
      (15, 15) := by
  have hlenS : (1 :: List.replicate (i - 1) (0 : Nat)).length = i := by
    simp only [List.length_cons, List.length_replicate]
    omega
  have hwin : ((1 :: List.replicate (i - 1) 0).drop (i - 15)).take
      (List.replicate 15 (0 : Nat)).length = List.replicate 15 (0 : Nat) := by
    rw [List.length_replicate]
    obtain ⟨q, hq⟩ : ∃ q, i - 15 = q + 1 := ⟨i - 16, by omega⟩
    rw [hq, List.drop_succ_cons, List.drop_replicate, List.take_replicate,
      min_eq_left (by omega)]
  have hrp : windowsRpos (1 :: List.replicate (i - 1) 0) (List.replicate 15 0) =
      some (i - 15) := by
    unfold windowsRpos
    rw [hlenS, List.length_replicate]
    exact rposFrom_top _ _ _ hwin
  rw [find_longest_match, List.length_replicate]
  have hstep : flmAux (1 :: List.replicate (i - 1) 0) (List.replicate 15 0) 15 =
      match windowsRpos (1 :: List.replicate (i - 1) 0)
          ((List.replicate 15 (0 : Nat)).take 15) with
      | some pos => ((1 :: List.replicate (i - 1) (0 : Nat)).length - pos, 15)
      | none => flmAux (1 :: List.replicate (i - 1) 0) (List.replicate 15 0) 14 := rfl
  rw [hstep]
  rw [show (List.replicate 15 (0 : Nat)).take 15 = List.replicate 15 0 from by
    rw [List.take_replicate, min_self]]
  rw [hrp]
  show ((1 :: List.replicate (i - 1) (0 : Nat)).length - (i - 15), 15) = (15, 15)
  rw [hlenS, show i - (i - 15) = 15 from by omega]

lemma rpos_marker : ∀ p, p ≤ 4095 →
    rposFrom (1 :: List.replicate 4095 0) [1] p = some 0 := by
  intro p
  induction p with
  | zero =>
    intro _
    apply rposFrom_top
    rfl
  | succ q ih =>
    intro h
    have hne : ¬ ((1 :: List.replicate 4095 (0 : Nat)).drop (q + 1)).take
        ([1] : List Nat).length = [1] := by
      rw [List.drop_succ_cons, List.drop_replicate, List.length_singleton,
        List.take_replicate, min_eq_left (by omega), List.replicate_one]
      decide
    show (if ((1 :: List.replicate 4095 (0 : Nat)).drop (q + 1)).take
        ([1] : List Nat).length = [1] then some (q + 1)
      else rposFrom (1 :: List.replicate 4095 0) [1] q) = some 0
    rw [if_neg hne]
    exact ih (by omega)

lemma flmAux_one (search ahead : List Nat) :
    flmAux search ahead 1 =
      match windowsRpos search (ahead.take 1) with
      | some pos => (search.length - pos, 1)
      | none => flmAux search ahead 0 := rfl

lemma flm_final :
    find_longest_match (1 :: List.replicate 4095 0) [1] = (4096, 1) := by
  have hrp : windowsRpos (1 :: List.replicate 4095 0) (([1] : List Nat).take 1) =
      some 0 := by
    rw [show (([1] : List Nat).take 1) = [1] from rfl]
    unfold windowsRpos
    rw [show (1 :: List.replicate 4095 (0 : Nat)).length - ([1] : List Nat).length = 4095
      from by rw [List.length_cons, List.length_replicate, List.length_singleton]]
    exact rpos_marker 4095 (Nat.le_refl _)
  rw [find_longest_match, show ([1] : List Nat).length = 1 from rfl]
  rw [flmAux_one, hrp]
  show ((1 :: List.replicate 4095 (0 : Nat)).length - 0, 1) = (4096, 1)
  rw [Nat.sub_zero, List.length_cons, List.length_replicate]

lemma c9_run : ∀ fuel i, 16 ≤ i → i ≤ 4096 → i % 16 = 0 → (4096 - i) / 16 < fuel →
    (0, 1) ∈ tokenFields (compressLoop markerRun 4096 15 [] i fuel) := by
  intro fuel
  induction fuel with
  | zero =>
    intro i _ _ _ h4
    exact absurd h4 (Nat.not_lt_zero _)
  | succ fuel ih =>
    intro i h1 h2 h3 h4
    have hlen : markerRun.length = 4097 := markerRun_length
    have hi : i < markerRun.length := by omega
    by_cases hfin : i = 4096
    · subst hfin
      have hm : find_longest_match
          ((markerRun.drop (4096 - 4096)).take (4096 - (4096 - 4096)))
          ((markerRun.drop 4096).take (min (4096 + 15) markerRun.length - 4096)) =
          (4096, 1) := by
        have e1 : (markerRun.drop (4096 - 4096)).take (4096 - (4096 - 4096)) =
            1 :: List.replicate 4095 0 := by
          rw [show (4096 : Nat) - 4096 = 0 from rfl, List.drop_zero, Nat.sub_zero,
            markerRun_take 4096 (by omega) (by omega)]
        have e2 : (markerRun.drop 4096).take (min (4096 + 15) markerRun.length - 4096) =
            [1] := by
          rw [hlen, show min (4096 + 15) 4097 - 4096 = 1 from by norm_num]
          have e2b : markerRun.drop 4096 = [1] := by
            unfold markerRun
            rw [show (4096 : Nat) = 4095 + 1 from rfl, List.drop_succ_cons,
              List.drop_append_of_le_length (by simp only [List.length_replicate]; omega),
              List.drop_replicate]
            simp
          rw [e2b]
          rfl
        rw [e1, e2]
        exact flm_final
      have hn : (if markerRun.length ≤ 4096 + 1 then 0
          else markerRun.getD (4096 + 1) 0) = 0 := by
        rw [hlen, if_pos (by omega)]
      rw [compressLoop_step_eq markerRun 4096 15 [] 4096 (fuel + 1) (by omega) hi
        4096 1 0 hm hn]
      rw [compressLoop_stop markerRun 4096 15 _ _ _ (by omega)]
      decide
    · have h5 : i ≤ 4080 := by omega
      have hm : find_longest_match ((markerRun.drop (i - 4096)).take (i - (i - 4096)))
          ((markerRun.drop i).take (min (i + 15) markerRun.length - i)) = (15, 15) := by
        have e1 : (markerRun.drop (i - 4096)).take (i - (i - 4096)) =
            1 :: List.replicate (i - 1) 0 := by
          rw [show i - 4096 = 0 from by omega, List.drop_zero, Nat.sub_zero]
          exact markerRun_take i (by omega) (by omega)
        have e2 : (markerRun.drop i).take (min (i + 15) markerRun.length - i) =
            List.replicate 15 0 := by
          rw [hlen, min_eq_left (by omega), show i + 15 - i = 15 from by omega]
          exact markerRun_drop_take i 15 (by omega) (by omega)
        rw [e1, e2]
        exact flm_zero_run i h1 (by omega)
      have hn : (if markerRun.length ≤ i + 15 then 0
          else markerRun.getD (i + 15) 0) = 0 := by
        rw [hlen, if_neg (by omega)]
        exact markerRun_getD (i + 15) (by omega) (by omega)
      rw [compressLoop_step_eq markerRun 4096 15 [] i (fuel + 1) (by omega) hi
        15 15 0 hm hn]
      rw [compressLoop_acc, tokenFields_encode 15 15 0 (by omega) (by omega)]
      apply List.mem_cons_of_mem
      simp only [Nat.add_sub_cancel]
      exact ih (i + 15 + 1) (by omega) (by omega) (by omega) (by omega)

lemma c9_compress_marker : (0, 1) ∈ tokenFields (compress markerRun 4096 15) := by
  have hlen : markerRun.length = 4097 := markerRun_length
  show (0, 1) ∈ tokenFields (compressLoop markerRun 4096 15 [] 0 (markerRun.length + 1))
  rw [hlen]
  have hm0 : find_longest_match ((markerRun.drop (0 - 4096)).take (0 - (0 - 4096)))
      ((markerRun.drop 0).take (min (0 + 15) markerRun.length - 0)) = (0, 0) := by
    exact flm_nil _
  have hn0 : (if markerRun.length ≤ 0 + 0 then 0 else markerRun.getD (0 + 0) 0) = 1 := by
    rw [hlen, if_neg (by omega)]
    rfl
  rw [compressLoop_step_eq markerRun 4096 15 [] 0 (4097 + 1) (by norm_num)
    (by omega) 0 0 1 hm0 hn0]
  rw [compressLoop_acc, tokenFields_encode 0 0 1 (by norm_num) (by norm_num)]
  apply List.mem_cons_of_mem
  rw [show (0 : Nat) + 0 + 1 = 1 from rfl]
  have hm1 : find_longest_match ((markerRun.drop (1 - 4096)).take (1 - (1 - 4096)))
      ((markerRun.drop 1).take (min (1 + 15) markerRun.length - 1)) = (0, 0) := by
    have e1 : (markerRun.drop (1 - 4096)).take (1 - (1 - 4096)) = [1] := by
      rw [show (1 : Nat) - 4096 = 0 from rfl, List.drop_zero,
        show (1 : Nat) - 0 = 1 from rfl]
      rfl
    have e2 : (markerRun.drop 1).take (min (1 + 15) markerRun.length - 1) =
        List.replicate 15 0 := by
      rw [hlen, show min (1 + 15) 4097 - 1 = 15 from by norm_num]
      exact markerRun_drop_take 1 15 (by omega) (by omega)
    rw [e1, e2]
    decide
  have hn1 : (if markerRun.length ≤ 1 + 0 then 0 else markerRun.getD (1 + 0) 0) = 0 := by
    rw [hlen, if_neg (by omega)]
    rfl
  rw [compressLoop_step_eq markerRun 4096 15 [] 1 (4097 + 1 - 1) (by norm_num)
    (by omega) 0 0 0 hm1 hn1]
  rw [compressLoop_acc, tokenFields_encode 0 0 0 (by norm_num) (by norm_num)]
  apply List.mem_cons_of_mem
  rw [show (1 : Nat) + 0 + 1 = 2 from rfl]
  have hm2 : find_longest_match ((markerRun.drop (2 - 4096)).take (2 - (2 - 4096)))
      ((markerRun.drop 2).take (min (2 + 15) markerRun.length - 2)) = (1, 1) := by
    have e1 : (markerRun.drop (2 - 4096)).take (2 - (2 - 4096)) = [1, 0] := by
      rw [show (2 : Nat) - 4096 = 0 from rfl, List.drop_zero,
        show (2 : Nat) - 0 = 2 from rfl]
      rfl
    have e2 : (markerRun.drop 2).take (min (2 + 15) markerRun.length - 2) =
        List.replicate 15 0 := by
      rw [hlen, show min (2 + 15) 4097 - 2 = 15 from by norm_num]
      exact markerRun_drop_take 2 15 (by omega) (by omega)
    rw [e1, e2]
    decide
  have hn2 : (if markerRun.length ≤ 2 + 1 then 0 else markerRun.getD (2 + 1) 0) = 0 := by
    rw [hlen, if_neg (by omega)]
    rfl
  rw [compressLoop_step_eq markerRun 4096 15 [] 2 (4097 + 1 - 1 - 1) (by norm_num)
    (by omega) 1 1 0 hm2 hn2]
  rw [compressLoop_acc, tokenFields_encode 1 1 0 (by norm_num) (by norm_num)]
  apply List.mem_cons_of_mem
  rw [show (2 : Nat) + 1 + 1 = 4 from rfl]
  have hm4 : find_longest_match ((markerRun.drop (4 - 4096)).take (4 - (4 - 4096)))
      ((markerRun.drop 4).take (min (4 + 15) markerRun.length - 4)) = (3, 3) := by
    have e1 : (markerRun.drop (4 - 4096)).take (4 - (4 - 4096)) = [1, 0, 0, 0] := by
      rw [show (4 : Nat) - 4096 = 0 from rfl, List.drop_zero,
        show (4 : Nat) - 0 = 4 from rfl]
      rfl
    have e2 : (markerRun.drop 4).take (min (4 + 15) markerRun.length - 4) =
        List.replicate 15 0 := by
      rw [hlen, show min (4 + 15) 4097 - 4 = 15 from by norm_num]
      exact markerRun_drop_take 4 15 (by omega) (by omega)
    rw [e1, e2]
    decide
  have hn4 : (if markerRun.length ≤ 4 + 3 then 0 else markerRun.getD (4 + 3) 0) = 0 := by
    rw [hlen, if_neg (by omega)]
    rfl
  rw [compressLoop_step_eq markerRun 4096 15 [] 4 (4097 + 1 - 1 - 1 - 1) (by norm_num)
    (by omega) 3 3 0 hm4 hn4]
  rw [compressLoop_acc, tokenFields_encode 3 3 0 (by norm_num) (by norm_num)]
  apply List.mem_cons_of_mem
  rw [show (4 : Nat) + 3 + 1 = 8 from rfl]
  have hm8 : find_longest_match ((markerRun.drop (8 - 4096)).take (8 - (8 - 4096)))
      ((markerRun.drop 8).take (min (8 + 15) markerRun.length - 8)) = (7, 7) := by
    have e1 : (markerRun.drop (8 - 4096)).take (8 - (8 - 4096)) =
        [1, 0, 0, 0, 0, 0, 0, 0] := by
      rw [show (8 : Nat) - 4096 = 0 from rfl, List.drop_zero,
        show (8 : Nat) - 0 = 8 from rfl]
      rfl
    have e2 : (markerRun.drop 8).take (min (8 + 15) markerRun.length - 8) =
        List.replicate 15 0 := by
      rw [hlen, show min (8 + 15) 4097 - 8 = 15 from by norm_num]
      exact markerRun_drop_take 8 15 (by omega) (by omega)
    rw [e1, e2]
    decide
  have hn8 : (if markerRun.length ≤ 8 + 7 then 0 else markerRun.getD (8 + 7) 0) = 0 := by
    rw [hlen, if_neg (by omega)]
    rfl
  rw [compressLoop_step_eq markerRun 4096 15 [] 8 (4097 + 1 - 1 - 1 - 1 - 1) (by norm_num)
    (by omega) 7 7 0 hm8 hn8]
  rw [compressLoop_acc, tokenFields_encode 7 7 0 (by norm_num) (by norm_num)]
  apply List.mem_cons_of_mem
  rw [show (8 : Nat) + 7 + 1 = 16 from rfl]
  exact c9_run (4097 + 1 - 1 - 1 - 1 - 1 - 1) 16 (by norm_num) (by norm_num)
    (by norm_num) (by norm_num)

/-! ### Claim theorems -/

/-- Claim C1: for every byte sequence b that does not end in a 0x00 byte,
compressing with the default window sizes (max_dictionary_size = 4095,
lookahead_buffer_size = 15) and then decompressing returns b exactly. -/
theorem c1_round_trip_default (b : List Nat) (hbytes : ∀ x ∈ b, x < 256)
    (hlast : b.getLast? ≠ some 0) :
    decompress (compress b 4095 15) = some b :=
  roundtrip_general b 4095 15 (by omega) (by omega) hlast

theorem c1_round_trip_default_witness :
    (∀ x ∈ ([104, 101, 108, 108, 111] : List Nat), x < 256) ∧
      ([104, 101, 108, 108, 111] : List Nat).getLast? ≠ some 0 ∧
      decompress (compress [104, 101, 108, 108, 111] 4095 15) =
        some [104, 101, 108, 108, 111] :=
  ⟨by decide, by decide,
    c1_round_trip_default [104, 101, 108, 108, 111] (by decide) (by decide)⟩

/-- Claim C2 counterexample: decoding the chunk [1, 80, 97] (distance 1,
length 5, an overlapping self-referential copy) against the one-byte buffer
[97] does not append five more copies of 97: the batch slice copy is out of
bounds, so decode fails (none models the Rust panic), contrary to the claim
that decode succeeds with run-length semantics. -/
theorem c2_overlap_counterexample :
    decode [97] [1, 80, 97] = none ∧
      decode [97] [1, 80, 97] ≠ some [97, 97, 97, 97, 97, 97, 97] := by
  decide

/-- Claim C2 amended: for every buffer and 3-byte chunk decoding to distance d
with 0 < d ≤ buffer length and length l > d (an overlapping self-referential
copy), decode does not perform the run-length copy at all: the batch slice
buffer[start..start+l] exceeds the buffer and decode fails (none, modelling
the out-of-bounds panic of the Rust slice operation). -/
theorem c2_overlap_decode_fails (buffer chunk : List Nat)
    (hd0 : 0 < (chunk.getD 0 0) ||| (((chunk.getD 1 0) &&& 15) <<< 8))
    (hdb : (chunk.getD 0 0) ||| (((chunk.getD 1 0) &&& 15) <<< 8) ≤ buffer.length)
    (hld : (chunk.getD 0 0) ||| (((chunk.getD 1 0) &&& 15) <<< 8) <
      (chunk.getD 1 0) >>> 4) :
    decode buffer chunk = none := by
  simp only [decode]
  split
  · rename_i hcond
    exact absurd hcond.1 (by omega)
  · split
    · split
      · rename_i h2 h3
        exact absurd h3 (by omega)
      · rfl
    · rename_i h2
      exact absurd (by omega :
        buffer.length - ((chunk.getD 0 0) ||| (((chunk.getD 1 0) &&& 15) <<< 8)) <
          buffer.length) h2

theorem c2_overlap_decode_fails_witness :
    0 < (([1, 80, 97] : List Nat).getD 0 0) |||
        (((([1, 80, 97] : List Nat).getD 1 0) &&& 15) <<< 8) ∧
      decode [97] [1, 80, 97] = none :=
  ⟨by decide, c2_overlap_decode_fails [97] [1, 80, 97] (by decide) (by decide) (by decide)⟩

/-- Claim C3 counterexample: the token stream produced by compressing
b"aaaaaa" with the default window sizes contains no token whose distance is 1
and whose length exceeds 1, contrary to the claim. -/
theorem c3_no_distance1_token :
    ¬ ∃ p ∈ tokenFields (compress [97, 97, 97, 97, 97, 97] 4095 15),
        p.1 = 1 ∧ 1 < p.2 := by
  decide

/-- Claim C3 amended: compressing b"aaaaaa" with the default window sizes
produces the stream [0,0,97, 1,16,97, 3,48,0] whose decoded (distance, length)
fields are (0,0), (1,1), (3,3): the run is reproduced through a length-3
distance-3 back-reference (the match finder only matches inside the history,
so length never exceeds distance and no overlapping distance-1 token of
length exceeding 1 is ever emitted), and decompressing reproduces all six
bytes of the input. -/
theorem c3_aaaaaa_round_trip :
    compress [97, 97, 97, 97, 97, 97] 4095 15 = [0, 0, 97, 1, 16, 97, 3, 48, 0] ∧
      tokenFields (compress [97, 97, 97, 97, 97, 97] 4095 15) =
        [(0, 0), (1, 1), (3, 3)] ∧
      decompress (compress [97, 97, 97, 97, 97, 97] 4095 15) =
        some [97, 97, 97, 97, 97, 97] := by
  decide

/-- Claim C4 counterexample: decoding the chunk [2, 16, 97] (distance 2,
length 1) against the one-byte buffer [5] is a back-reference pointing before
the start of the buffer, yet decode does not skip the copy: the saturated
start index 0 is still below the buffer length, so the byte 5 is copied and
the result is [5, 5, 97], not the claimed literal-only [5, 97]. -/
theorem c4_saturating_copy_counterexample :
    decode [5] [2, 16, 97] = some [5, 5, 97] ∧
      decode [5] [2, 16, 97] ≠ some [5, 97] := by
  decide

/-- Claim C4 amended: the copy is skipped with only the literal chunk[2]
appended when the output buffer is empty (then start saturates to 0 and the
guard start < buffer length fails); in particular decoding [10, 48, 97]
against an empty buffer yields [97].  Against a non-empty buffer an
out-of-range distance saturates start to 0 and a copy is still performed. -/
theorem c4_empty_buffer_literal (chunk : List Nat) (hlen : chunk.length = 3) :
    decode [] chunk = some [chunk.getD 2 0] := by
  simp [decode]

theorem c4_empty_buffer_literal_witness :
    ([10, 48, 97] : List Nat).length = 3 ∧ decode [] [10, 48, 97] = some [97] :=
  ⟨by decide, c4_empty_buffer_literal [10, 48, 97] (by decide)⟩

/-- Claim C5: for every non-empty compressed input whose byte length is not a
multiple of 3, decompress fails: taking the final partial 3-byte chunk goes
out of bounds (the none branch of the embedded chunk loop), whatever buffer
has been decoded up to that point, so decompress is not total without the
length-multiple-of-3 precondition. -/
theorem c5_partial_chunk_fails (data : List Nat) (hne : data ≠ [])
    (h3 : data.length % 3 ≠ 0) :
    decompress data = none ∧
      ∀ buffer, decompressLoop buffer (data.drop (3 * (data.length / 3))) = none := by
  constructor
  · exact decompress_none_of_loop data (decompressLoop_not_mul3 data [] h3)
  · intro buffer
    apply decompressLoop_not_mul3
    rw [List.length_drop]
    omega

theorem c5_partial_chunk_fails_witness :
    decompress [1, 2, 3, 4] = none ∧
      decompressLoop []
        (([1, 2, 3, 4] : List Nat).drop (3 * (([1, 2, 3, 4] : List Nat).length / 3))) =
        none :=
  ⟨(c5_partial_chunk_fails [1, 2, 3, 4] (by decide) (by decide)).1,
    (c5_partial_chunk_fails [1, 2, 3, 4] (by decide) (by decide)).2 []⟩

/-- Claim C6: find_longest_match returns (len(history) - s, L) where L is the
largest length in [1, len(lookahead)] for which some contiguous L-byte window
of the history equals the first L bytes of the lookahead and s is the
rightmost start index of such a window; if no such L exists it returns (0, 0).
In particular find_longest_match(b"abcde", b"abcde12345") = (5, 5) and
find_longest_match(b"", x) = (0, 0) for every x. -/
theorem c6_find_longest_match_spec :
    find_longest_match [97, 98, 99, 100, 101]
        [97, 98, 99, 100, 101, 49, 50, 51, 52, 53] = (5, 5) ∧
    (∀ x : List Nat, find_longest_match [] x = (0, 0)) ∧
    (∀ search ahead d L, find_longest_match search ahead = (d, L) →
      (d = 0 ∧ L = 0 ∧ ∀ L' s, 1 ≤ L' → L' ≤ ahead.length →
          ¬ matchAt search ahead s L') ∨
      (1 ≤ L ∧ L ≤ ahead.length ∧ ∃ s, d = search.length - s ∧
        matchAt search ahead s L ∧ (∀ t, matchAt search ahead t L → t ≤ s) ∧
        (∀ L' s', L < L' → L' ≤ ahead.length → ¬ matchAt search ahead s' L'))) := by
  refine ⟨by decide, ?_, ?_⟩
  · intro x
    rcases flmAux_spec [] x x.length (Nat.le_refl _) with
      ⟨he, _⟩ | ⟨L, s, h1, h2, h3, h4, _⟩
    · exact he
    · exfalso
      have h5 := h4.1
      simp only [List.length_nil] at h5
      omega
  · intro search ahead d L h
    rcases flmAux_spec search ahead ahead.length (Nat.le_refl _) with
      ⟨he, hno⟩ | ⟨L0, s0, h1, h2, h3, h4, h5, h6⟩
    · left
      rw [find_longest_match, he] at h
      injection h with hd hL
      exact ⟨hd.symm, hL.symm, hno⟩
    · right
      rw [find_longest_match, h3] at h
      injection h with hd hL
      subst hd
      subst hL
      exact ⟨h1, h2, s0, rfl, h4, h5, h6⟩

theorem c6_find_longest_match_spec_witness :
    matchAt [97, 98, 99, 100, 101] [97, 98, 99, 100, 101, 49, 50, 51, 52, 53] 0 5 := by
  rcases c6_find_longest_match_spec.2.2 [97, 98, 99, 100, 101]
      [97, 98, 99, 100, 101, 49, 50, 51, 52, 53] 5 5 (by decide) with
    ⟨h0, _⟩ | ⟨_, _, s, hs, hm, _⟩
  · exact absurd h0 (by omega)
  · have h6 := hm.1
    simp only [List.length_cons, List.length_nil] at h6
    have hs0 : s = 0 := by omega
    rw [hs0] at hm
    exact hm

/-- Claim C7: encode appends exactly the three bytes [distance & 0xFF,
((distance >> 8) & 0x0F) | ((length & 0x0F) << 4), literal] to the output
vector, with no validation: a distance of 4096 or more or a length of 16 or
more silently loses its high-order bits by masking, and encode(10, 3, 97)
appends [10, 48, 97]. -/
theorem c7_encode_bytes (acc : List Nat) (d l lit : Nat) :
    encode acc d l lit =
      acc ++ [d &&& 255, ((d >>> 8) &&& 15) ||| ((l &&& 15) <<< 4), lit] ∧
    encode acc d l lit = encode acc (d % 4096) (l % 16) lit ∧
    encode [] 10 3 97 = [10, 48, 97] := by
  refine ⟨?_, ?_, by decide⟩
  · unfold encode
    have h1 := land_3840_shift d
    have h2 : (d >>> 8) &&& 15 = d / 256 % 16 := by
      rw [land_15, Nat.shiftRight_eq_div_pow]
    rw [h1, h2]
  · unfold encode
    rw [enc_b1_eq d l, enc_b1_eq (d % 4096) (l % 16), land_255, land_255]
    have h1 : d % 256 = d % 4096 % 256 := by omega
    have h2 : (l % 16) * 16 + d / 256 % 16 =
        (l % 16 % 16) * 16 + (d % 4096) / 256 % 16 := by omega
    rw [h1, h2]

/-- Claim C8: compress terminates and never fails for every input and window
parameters: any fuel exceeding the input length already completes the loop
(each iteration advances the cursor by the match length plus 1, hence at
least 1), and the loop with every slice and index access bounds-checked
returns some of the unchecked result, so no out-of-bounds access occurs. -/
theorem c8_compress_total (raw : List Nat) (md lk : Nat) (fuel : Nat)
    (hfuel : raw.length < fuel) :
    compressLoop raw md lk [] 0 fuel = compress raw md lk ∧
      compressChkLoop raw md lk [] 0 fuel = some (compress raw md lk) ∧
      (∀ search ahead : List Nat, 1 ≤ (find_longest_match search ahead).2 + 1) := by
  have h1 : compressLoop raw md lk [] 0 fuel = compress raw md lk :=
    compressLoop_fuel_stable raw md lk fuel (raw.length + 1) [] 0 (by omega) (by omega)
  refine ⟨h1, ?_, fun search ahead => Nat.succ_le_succ (Nat.zero_le _)⟩
  rw [compressChkLoop_eq raw md lk fuel [] 0 (by omega), h1]

theorem c8_compress_total_witness :
    ([104, 105] : List Nat).length < 3 ∧
      compressLoop [104, 105] 4095 15 [] 0 3 = compress [104, 105] 4095 15 ∧
      compressChkLoop [104, 105] 4095 15 [] 0 3 = some (compress [104, 105] 4095 15) :=
  ⟨by decide, (c8_compress_total [104, 105] 4095 15 3 (by decide)).1,
    (c8_compress_total [104, 105] 4095 15 3 (by decide)).2.1⟩

/-- Claim C9, amended: a positive-length match returned by find_longest_match
satisfies 1 <= length <= distance <= history length (and length <= distance
holds for every result, the no-match result being (0,0)).  The decoded-token
consequence of the claim must be restricted to window parameters within the
12-bit/4-bit token field capacity (max_dictionary_size <= 4095 and
lookahead <= 15, which includes the defaults): then every token of a stream
produced by compress has its decoded length at most its decoded distance, and
decompressing such a stream never fails, the batch slice copy in decode never
reading past the end of the output buffer.  Unrestricted, the decoded-token
consequence is false: with max_dictionary_size = 4096 the encoder masks a
distance-4096 match down to decoded distance 0 (see the counterexample). -/
theorem c9_match_invariant :
    (∀ search ahead d l, find_longest_match search ahead = (d, l) → 0 < l →
      1 ≤ l ∧ l ≤ d ∧ d ≤ search.length) ∧
    (∀ search ahead : List Nat,
      (find_longest_match search ahead).2 ≤ (find_longest_match search ahead).1) ∧
    (∀ raw md lk, md ≤ 4095 → lk ≤ 15 →
      (∀ p ∈ tokenFields (compress raw md lk), p.2 ≤ p.1) ∧
      (decompress (compress raw md lk)).isSome = true) := by
  refine ⟨?_, ?_, ?_⟩
  · intro search ahead d l h hl
    obtain ⟨ha, hb, _, _⟩ := flm_pos search ahead d l h hl
    exact ⟨hl, ha, hb⟩
  · intro search ahead
    rcases Nat.eq_zero_or_pos (find_longest_match search ahead).2 with h0 | h0
    · rw [h0]
      exact Nat.zero_le _
    · exact (flm_pos search ahead _ _ rfl h0).1
  · intro raw md lk hmd hlk
    exact ⟨fun p hp =>
        compress_tokens_bounded raw md lk hmd hlk (raw.length + 1) 0 (by omega) p hp,
      decompress_compress_isSome raw md lk hmd hlk⟩

theorem c9_match_invariant_witness :
    (1 ≤ 1 ∧ 1 ≤ 1 ∧ 1 ≤ ([97] : List Nat).length) ∧
      (((3, 3) : Nat × Nat).2 ≤ ((3, 3) : Nat × Nat).1) ∧
      (decompress (compress [97, 97, 97, 97, 97, 97] 4095 15)).isSome = true :=
  ⟨c9_match_invariant.1 [97] [97, 98] 1 1 (by decide) (by decide),
    (c9_match_invariant.2.2 [97, 97, 97, 97, 97, 97] 4095 15 (by decide) (by decide)).1
      (3, 3) (by decide),
    (c9_match_invariant.2.2 [97, 97, 97, 97, 97, 97] 4095 15 (by decide) (by decide)).2⟩

/-- Counterexample to the unrestricted decoded-token consequence of claim C9:
with a dictionary window of 4096 (one past the 12-bit field capacity) the
4097-byte input markerRun — the byte 1, then 4095 zero bytes, then the byte 1
again — makes compress emit for the final marker byte the token
encode 4096 1 0 = [0, 16, 0], whose decoded (distance, length) fields are
(0, 1): a token with decoded length strictly greater than decoded distance. -/
theorem c9_masked_token_counterexample :
    (0, 1) ∈ tokenFields (compress markerRun 4096 15) ∧
      ¬ ∀ p ∈ tokenFields (compress markerRun 4096 15), p.2 ≤ p.1 := by
  refine ⟨c9_compress_marker, fun hall => ?_⟩
  have h := hall (0, 1) c9_compress_marker
  simp at h

/-- Claim C10: whenever decode returns normally on a 3-byte chunk, it only
appends: the original buffer contents are preserved unchanged as a prefix of
the result, the buffer grows by at least one byte, and the last byte of the
result is always the literal chunk[2]. -/
theorem c10_decode_appends (buffer chunk out : List Nat) (hlen : chunk.length = 3)
    (h : decode buffer chunk = some out) :
    buffer.length + 1 ≤ out.length ∧ out.take buffer.length = buffer ∧
      out.getLast? = some (chunk.getD 2 0) := by
  simp only [decode] at h
  split at h
  · injection h with h0
    subst h0
    refine ⟨by simp, List.take_left buffer _, by simp⟩
  · split at h
    · split at h
      · injection h with h0
        subst h0
        refine ⟨by simp, ?_, by simp⟩
        rw [List.append_assoc]
        exact List.take_left buffer _
      · exact Option.noConfusion h
    · injection h with h0
      subst h0
      refine ⟨by simp, List.take_left buffer _, by simp⟩

theorem c10_decode_appends_witness :
    ([] : List Nat).length + 1 ≤ ([97] : List Nat).length ∧
      ([97] : List Nat).take ([] : List Nat).length = [] ∧
      ([97] : List Nat).getLast? = some (([10, 48, 97] : List Nat).getD 2 0) :=
  c10_decode_appends [] [10, 48, 97] [97] (by decide) (by decide)
